import Mathlib

/-!
Verification of the insta-image2video ingestion pipeline (`src/app.py`):
the stability-detection watcher (`Poller._tick`), the claim operation
(`safe_move` / `unique_stem`), the FIFO job queue with its single worker
(`JobQueue._worker`), and the chat adapter's ready-directory polling loop
(`handle_photo`).

Machine integers do not occur (file sizes, tick counts and timestamps are
unbounded Python ints, modelled as `Nat`); exceptions are modelled by
explicit success/failure booleans or `Option` results; the filesystem is
modelled as an association list from paths to file contents.

The file is laid out definitions first, then all theorems.
-/

namespace InstaPipeline

/-! ## Poller (stability detector), from `Poller` in src/app.py

`POLL_INTERVAL = 0.5`, `STABLE_TICKS = 3`.  The per-path tracking record
`self._seen[path] = {"size": size, "stable": 0}` becomes `TrackRec`;
`Poller._tick` becomes `tickStep`, acting on `Option TrackRec` (`none` =
path not tracked) and the size observed at this tick, and reporting
whether this tick triggered a claim (the `safe_move` into WORK_DIR plus
enqueue). -/

namespace Poller

def POLL_INTERVAL : ℚ := 1/2

def STABLE_TICKS : ℕ := 3

end Poller

structure TrackRec where
  size : ℕ
  stable : ℕ
  deriving DecidableEq, Repr

/-- One call of `Poller._tick` for a tracked path, given the current
observed size.  A newly seen path starts tracking at `stable = 0` with
no claim check; otherwise an unchanged positive size increments
`stable`, any other observation resets the record, and the claim fires
once `stable` reaches `STABLE_TICKS`, dropping the path from tracking.
Returns the new tracking state (`none` when the path was claimed and
popped from `_seen`) and whether a claim was triggered. -/
def tickStep (rec : Option TrackRec) (size : ℕ) : Option TrackRec × Bool :=
  match rec with
  | none => (some ⟨size, 0⟩, false)
  | some r =>
    let r' : TrackRec :=
      if size = r.size ∧ 0 < size then ⟨r.size, r.stable + 1⟩ else ⟨size, 0⟩
    if Poller.STABLE_TICKS ≤ r'.stable then (none, true) else (some r', false)

/-- The tracking state and claim flag after feeding the size observations
`sizes 0, sizes 1, ..., sizes n` to `Poller._tick`, the path being unseen
before tick `0`. -/
def runTick (sizes : ℕ → ℕ) : ℕ → Option TrackRec × Bool
  | 0 => tickStep none (sizes 0)
  | n + 1 => tickStep (runTick sizes n).1 (sizes (n + 1))

/-- Whether tick `n` triggers the claim of the path into the work directory. -/
def claimedAt (sizes : ℕ → ℕ) (n : ℕ) : Bool :=
  (runTick sizes n).2

/-! ## Naming (`unique_stem`) and the claim operation (`safe_move`)

`unique_stem` builds `f"{stem}_{ts}_{uid}"` from the source's stem, the
current timestamp string (`"%Y%m%d_%H%M%S_%f"`) and the first 8 hex
characters of a fresh UUID4.  Timestamp and UUID draw are environment
inputs here, passed as explicit `ts`/`uid` arguments. -/

/-- Split a character list at every occurrence of `c` (the pieces do not
contain `c`); mirrors `str.split(c)`. -/
def splitOnChar (c : Char) : List Char → List (List Char)
  | [] => [[]]
  | x :: xs =>
    match splitOnChar c xs with
    | [] => [[]]
    | h :: t => if x = c then [] :: h :: t else (x :: h) :: t

/-- Join pieces back with separator `c`; inverse of `splitOnChar` on its
image. -/
def joinSep (c : Char) : List (List Char) → List Char
  | [] => []
  | [l] => l
  | l :: ls => l ++ c :: joinSep c ls

/-- Lower-case every character, as `str.lower()` on ASCII names. -/
def lowerStr (s : String) : String :=
  ⟨s.data.map Char.toLower⟩

/-- Final path component, as Python's `Path(...).name`. -/
def baseName (s : String) : String :=
  ⟨(splitOnChar '/' s.data).getLastD s.data⟩

/-- Split a file name into Python's `Path(...).stem` and `.suffix`:
the suffix is the part from the last dot on, except that a name with no
dot, a leading-dot-only name (".hidden") or a trailing-dot name carries
no suffix. -/
def fnameSplit (s : String) : String × String :=
  match splitOnChar '.' s.data with
  | [] => (s, "")
  | [_] => (s, "")
  | p :: rest =>
    if (p :: rest).getLastD [] = [] then (s, "")
    else if p = [] ∧ rest.length = 1 then (s, "")
    else (⟨joinSep '.' ((p :: rest).dropLast)⟩,
          ⟨'.' :: (p :: rest).getLastD []⟩)

/-- Model of `unique_stem` from src/app.py: stem of the source, timestamp, 8-hex
UUID prefix, joined by underscores. -/
def unique_stem (pathOrName ts uid : String) : String :=
  (fnameSplit (baseName pathOrName)).1 ++ "_" ++ ts ++ "_" ++ uid

/-- Destination file name generated by `safe_move`: `unique_stem` plus,
when `keep_ext`, the lower-cased suffix of the source. -/
def destFname (src ts uid : String) (keepExt : Bool) : String :=
  unique_stem src ts uid ++
    (if keepExt then lowerStr (fnameSplit (baseName src)).2 else "")

/-- A filesystem path: directory plus file name.  Directories model the
staging areas (inbox, work, ready, archive, failed, tmp). -/
structure FsPath where
  dir : String
  fname : String
  deriving DecidableEq, Repr

/-- Filesystem state: which files exist, each with its content (a token,
here a `ℕ`).  There are no partial files: `os.replace` (POSIX rename)
makes the whole source appear atomically at the destination. -/
abbrev FS := List (FsPath × ℕ)

def fsGet : FS → FsPath → Option ℕ
  | [], _ => none
  | (q, v) :: rest, p => if q = p then some v else fsGet rest p

def fsErase : FS → FsPath → FS
  | [], _ => []
  | (q, v) :: rest, p =>
    if q = p then fsErase rest p else (q, v) :: fsErase rest p

/-- Model of `os.replace(src, dst)`: atomic rename.  `ok = false` models any
OS-level failure (permission denied, cross-device move, ...); a missing
source also fails.  On failure the filesystem is untouched; on success
the source's content appears whole at `dst` (overwriting any previous
`dst`) and the source entry is gone. -/
def osReplace (fs : FS) (src dst : FsPath) (ok : Bool) : Option FS :=
  if ok then
    match fsGet fs src with
    | some v => some ((dst, v) :: fsErase (fsErase fs src) dst)
    | none => none
  else none

/-- Model of `safe_move(src, dst_dir, keep_ext)` from src/app.py: build the unique
destination name, then a single `os.replace`.  Returns the new
filesystem and the destination path on success; on failure the original
filesystem and `none`. -/
def safe_move (fs : FS) (src : FsPath) (dstDir : String) (keepExt : Bool)
    (ts uid : String) (ok : Bool) : FS × Option FsPath :=
  let dst : FsPath := ⟨dstDir, destFname src.fname ts uid keepExt⟩
  match osReplace fs src dst ok with
  | some fs' => (fs', some dst)
  | none => (fs, none)

/-! ## Job queue and worker (`Job`, `JobQueue`, `JobQueue._worker`)

`queue.Queue` is FIFO: `put` appends at the back, `get` takes the front;
the queue is unbounded, so `put` never blocks.  `JobQueue._worker` is the
single consumer.  Exceptions are modelled by a `WorkerEnv` of booleans:
whether `subprocess.run(cmd, check=True)` succeeds, and whether each
`safe_move` call succeeds (raising otherwise). -/

structure Job where
  src_path : String
  is_temp : Bool
  deriving DecidableEq, Repr

/-- The encode-relevant part of `Settings`. -/
structure EncSettings where
  ready_dir : String
  duration : ℕ
  width : ℕ
  height : ℕ
  fps : ℕ
  deriving DecidableEq, Repr

/-- Model of `build_ffmpeg_cmd` from src/app.py: the exact argument vector handed
to the encoder. -/
def build_ffmpeg_cmd (img_path out_path : String)
    (duration width height fps : ℕ) : List String :=
  let w := toString width
  let h := toString height
  let vf :=
    "[0:v]scale=" ++ w ++ ":" ++ h ++ ":force_original_aspect_ratio=decrease[fg];" ++
    "[0:v]scale=" ++ w ++ ":" ++ h ++ ":force_original_aspect_ratio=increase," ++
    "crop=" ++ w ++ ":" ++ h ++ ",boxblur=20:1[bg];" ++
    "[bg][fg]overlay=(W-w)/2:(H-h)/2"
  ["ffmpeg",
   "-y",
   "-loglevel", "error", "-stats",
   "-loop", "1",
   "-i", img_path,
   "-t", toString duration,
   "-r", toString fps,
   "-filter_complex", vf,
   "-shortest",
   "-c:v", "libx264",
   "-b:v", "3M", "-maxrate", "3M", "-bufsize", "6M",
   "-pix_fmt", "yuv420p",
   "-movflags", "+faststart",
   out_path]

/-- Where the Job's source file sits once the worker is done with it. -/
inductive SrcLoc
  | work
  | archive
  | failed
  deriving DecidableEq, Repr

/-- Success/failure of the three fallible operations inside one worker
iteration: the encoder run, `safe_move(src, archive_dir)` and
`safe_move(src, failed_dir)`. -/
structure WorkerEnv where
  encodeOk : Bool
  archiveMoveOk : Bool
  failedMoveOk : Bool
  deriving DecidableEq, Repr

/-- Observable outcome of processing one dequeued Job. -/
structure Outcome where
  srcLoc : SrcLoc
  videoInReady : Bool
  attemptedFailedMove : Bool
  reEnqueued : Bool
  encCmd : List String
  deriving DecidableEq, Repr

/-- One iteration of `JobQueue._worker` on a dequeued Job, following the
source's `try`/`except` structure: convert; on success move the source to
archive; on `CalledProcessError` (encoder failure) or any other exception
(e.g. the archive move raising) move the source to failed; if that move
itself raises, only log — the source stays in work.  The worker never
puts anything back on the queue. -/
def workerProcess (env : WorkerEnv) (s : EncSettings) (ts uid : String)
    (job : Job) : Outcome :=
  let out_path := s.ready_dir ++ "/" ++ unique_stem job.src_path ts uid ++ ".mp4"
  let cmd := build_ffmpeg_cmd job.src_path out_path s.duration s.width s.height s.fps
  if env.encodeOk then
    if env.archiveMoveOk then
      ⟨SrcLoc.archive, true, false, false, cmd⟩
    else
      if env.failedMoveOk then ⟨SrcLoc.failed, true, true, false, cmd⟩
      else ⟨SrcLoc.work, true, true, false, cmd⟩
  else
    if env.failedMoveOk then ⟨SrcLoc.failed, false, true, false, cmd⟩
    else ⟨SrcLoc.work, false, true, false, cmd⟩

/-- Model of `JobQueue.add` / `queue.Queue.put`: append at the back; the queue is
unbounded, so this always succeeds immediately. -/
def JobQueue.add (q : List Job) (j : Job) : List Job :=
  q ++ [j]

/-- The queue contents after enqueueing `js` in order into an empty
queue. -/
def enqueueAll (js : List Job) : List Job :=
  js.foldl JobQueue.add []

/-- The single worker draining the queue front-to-back; `env`, `ts`,
`uid` give the environment of the `n`-th processed Job.  Sequential by
construction: one Job is fully processed before the next is dequeued. -/
def workerRun (env : ℕ → WorkerEnv) (s : EncSettings) (ts uid : ℕ → String) :
    List Job → List (Job × Outcome)
  | [] => []
  | j :: rest =>
    (j, workerProcess (env 0) s (ts 0) (uid 0) j) ::
      workerRun (fun n => env (n + 1)) s (fun n => ts (n + 1)) (fun n => uid (n + 1)) rest

/-! ## Chat adapter result polling (`handle_photo` in src/app.py)

After enqueueing, `handle_photo` loops `for _ in range(120)`: find the
newest `*.mp4` in the ready directory; if one exists whose mtime is
within 70 seconds of now, send it and stop; otherwise sleep 0.5 s and
retry.  The directory contents and the clock at each tick are
environment inputs. -/

structure ReadyFile where
  name : String
  mtime : ℕ
  deriving DecidableEq, Repr

/-- Does the file name match the `*.mp4` glob? -/
def isMp4 (name : String) : Bool :=
  decide (List.drop (name.data.length - 4) name.data = ['.', 'm', 'p', '4'])

/-- Model of `find_latest_mp4` from src/app.py: among the `*.mp4` entries, the one
with maximal mtime (first such entry on ties, as Python's `max`). -/
def find_latest_mp4 (files : List ReadyFile) : Option ReadyFile :=
  match files.filter (fun f => isMp4 f.name) with
  | [] => none
  | f :: rest => some (rest.foldl (fun b x => if b.mtime < x.mtime then x else b) f)

/-- The `range(120)` wait loop, one call per remaining iteration:
`ready t` is the ready-directory listing and `now t` the clock at tick
`t`.  Returns the reported artifact and the tick it was found at, or
`none` when the loop exhausts its iterations. -/
def pollLoop (ready : ℕ → List ReadyFile) (now : ℕ → ℕ) :
    ℕ → ℕ → Option (ReadyFile × ℕ)
  | 0, _ => none
  | fuel + 1, tick =>
    match find_latest_mp4 (ready tick) with
    | some f =>
      if now tick - f.mtime ≤ 70 then some (f, tick)
      else pollLoop ready now fuel (tick + 1)
    | none => pollLoop ready now fuel (tick + 1)

/-- The whole wait: 120 iterations starting at tick 0. -/
def handle_photo_poll (ready : ℕ → List ReadyFile) (now : ℕ → ℕ) :
    Option (ReadyFile × ℕ) :=
  pollLoop ready now 120 0

/-! ## Concrete instances used by witnesses and counterexamples -/

def c4fs : FS := [(⟨"inbox", "img.jpg"⟩, 5)]

def c4src : FsPath := ⟨"inbox", "img.jpg"⟩

def c4dst : FsPath :=
  ⟨"work", destFname "img.jpg" "20250101_120000_000000" "aabbccdd" true⟩

/-- Ready directory for the C7 counterexample: an eligible artifact
first appears at tick 100. -/
def c7ceReady (t : ℕ) : List ReadyFile :=
  if 100 ≤ t then [⟨"v.mp4", 1000⟩] else []

def c7ceNow (_ : ℕ) : ℕ := 1000

def c7wReady (_ : ℕ) : List ReadyFile := [⟨"out.mp4", 40⟩]

def c7wNow (_ : ℕ) : ℕ := 50

/-- An inbox file whose name looks exactly like a chat-adapter temp
file; a tmp file of the same name exists concurrently. -/
def c8name : String := "tg_image_20250101_120000_000000_deadbeef.jpg"

def c8ts : String := "20250101_120001_000000"

def c8uid : String := "11223344"

def c8fs : FS := [(⟨"inbox", c8name⟩, 1), (⟨"tmp", c8name⟩, 2)]

def c8dst : FsPath := ⟨"work", destFname c8name c8ts c8uid true⟩

/-- Filesystem after the first of the two colliding claims. -/
def c8fs1 : FS := (safe_move c8fs ⟨"inbox", c8name⟩ "work" true c8ts c8uid true).1

/-! ## Sanity checks of the definitions on concrete inputs -/

example : claimedAt (fun _ => 5) 3 = true := by decide
example : claimedAt (fun _ => 5) 2 = false := by decide
example : claimedAt (fun _ => 0) 50 = false := by decide
example : fnameSplit "img.jpg" = ("img", ".jpg") := by decide
example : fnameSplit "a.b.c" = ("a.b", ".c") := by decide
example : fnameSplit "noext" = ("noext", "") := by decide
example : fnameSplit ".hidden" = (".hidden", "") := by decide
example :
    destFname "inbox/img.JPG" "20250101_120000_000000" "aabbccdd" true
      = "img_20250101_120000_000000_aabbccdd.jpg" := by decide

/-! ## Helper lemmas about `tickStep` / `runTick` -/

theorem tickStep_none (s : ℕ) : tickStep none s = (some ⟨s, 0⟩, false) := rfl

theorem tickStep_reset (r : TrackRec) (s : ℕ) (h : ¬(s = r.size ∧ 0 < s)) :
    tickStep (some r) s = (some ⟨s, 0⟩, false) := by
  simp only [tickStep, if_neg h]
  rw [if_neg (by simp [Poller.STABLE_TICKS])]

theorem tickStep_same (r : TrackRec) (s : ℕ) (h : s = r.size ∧ 0 < s)
    (hlt : r.stable + 1 < Poller.STABLE_TICKS) :
    tickStep (some r) s = (some ⟨r.size, r.stable + 1⟩, false) := by
  simp only [tickStep, if_pos h]
  rw [if_neg (by omega)]

theorem tickStep_fire (r : TrackRec) (s : ℕ) (h : s = r.size ∧ 0 < s)
    (hge : Poller.STABLE_TICKS ≤ r.stable + 1) :
    tickStep (some r) s = (none, true) := by
  simp only [tickStep, if_pos h]
  rw [if_pos hge]

/-- While the observed size is strictly increasing, every tick leaves the
record at `stable = 0` and never claims. -/
theorem runTick_of_increasing (sizes : ℕ → ℕ) (k : ℕ)
    (hinc : ∀ i, i < k → sizes i < sizes (i + 1)) :
    ∀ i, i ≤ k → runTick sizes i = (some ⟨sizes i, 0⟩, false) := by
  intro i
  induction i with
  | zero => intro _; rfl
  | succ n ih =>
    intro hle
    have hn : n ≤ k := Nat.le_of_succ_le hle
    have hlt : n < k := Nat.lt_of_succ_le hle
    have hprev := ih hn
    have hne : sizes n < sizes (n + 1) := hinc n hlt
    show tickStep (runTick sizes n).1 (sizes (n + 1)) = _
    rw [hprev]
    exact tickStep_reset ⟨sizes n, 0⟩ (sizes (n + 1)) (by
      rintro ⟨heq, _⟩
      exact absurd heq (Nat.ne_of_gt hne))

/-- A path whose observed size is always zero stays tracked at
`stable = 0` forever and never fires a claim. -/
theorem runTick_zero (sizes : ℕ → ℕ) (hz : ∀ n, sizes n = 0) :
    ∀ n, runTick sizes n = (some ⟨0, 0⟩, false) := by
  intro n
  induction n with
  | zero =>
    show tickStep none (sizes 0) = _
    rw [hz 0]
    rfl
  | succ m ih =>
    show tickStep (runTick sizes m).1 (sizes (m + 1)) = _
    rw [ih, hz (m + 1)]
    exact tickStep_reset ⟨0, 0⟩ 0 (by simp)

/-- For a size trace that is strictly increasing up to tick `k` and then
constant (at a positive value), the three ticks after `k` raise the
stability counter to 1, 2 and then fire the claim. -/
theorem runTick_incr_const (sizes : ℕ → ℕ) (k : ℕ)
    (hinc : ∀ i, i < k → sizes i < sizes (i + 1))
    (hconst : ∀ i, k ≤ i → sizes i = sizes k)
    (hpos : 0 < sizes k) :
    runTick sizes (k + 1) = (some ⟨sizes k, 1⟩, false) ∧
    runTick sizes (k + 2) = (some ⟨sizes k, 2⟩, false) ∧
    runTick sizes (k + 3) = (none, true) := by
  have base : runTick sizes k = (some ⟨sizes k, 0⟩, false) :=
    runTick_of_increasing sizes k hinc k le_rfl
  have hc1 : sizes (k + 1) = sizes k := hconst (k + 1) (by omega)
  have hc2 : sizes (k + 2) = sizes k := hconst (k + 2) (by omega)
  have hc3 : sizes (k + 3) = sizes k := hconst (k + 3) (by omega)
  have h1 : runTick sizes (k + 1) = (some ⟨sizes k, 1⟩, false) := by
    show tickStep (runTick sizes k).1 (sizes (k + 1)) = _
    rw [base]
    exact tickStep_same ⟨sizes k, 0⟩ (sizes (k + 1)) ⟨hc1, by omega⟩
      (by simp [Poller.STABLE_TICKS])
  have h2 : runTick sizes (k + 2) = (some ⟨sizes k, 2⟩, false) := by
    show tickStep (runTick sizes (k + 1)).1 (sizes (k + 2)) = _
    rw [h1]
    exact tickStep_same ⟨sizes k, 1⟩ (sizes (k + 2)) ⟨hc2, by omega⟩
      (by simp [Poller.STABLE_TICKS])
  have h3 : runTick sizes (k + 3) = (none, true) := by
    show tickStep (runTick sizes (k + 2)).1 (sizes (k + 3)) = _
    rw [h2]
    exact tickStep_fire ⟨sizes k, 2⟩ (sizes (k + 3)) ⟨hc3, by omega⟩
      (by simp [Poller.STABLE_TICKS])
  exact ⟨h1, h2, h3⟩

/-- Exact claim position for an increasing-then-constant size trace:
the claim fires at tick `k + 3` and at no earlier tick. -/
theorem claim_position (sizes : ℕ → ℕ) (k : ℕ)
    (hinc : ∀ i, i < k → sizes i < sizes (i + 1))
    (hconst : ∀ i, k ≤ i → sizes i = sizes k)
    (hpos : 0 < sizes k) :
    claimedAt sizes (k + 3) = true ∧
    ∀ n, n < k + 3 → claimedAt sizes n = false := by
  obtain ⟨h1, h2, h3⟩ := runTick_incr_const sizes k hinc hconst hpos
  refine ⟨by simp [claimedAt, h3], ?_⟩
  intro n hn
  rcases Nat.lt_or_ge n (k + 1) with hle | hge
  · have := runTick_of_increasing sizes k hinc n (by omega)
    simp [claimedAt, this]
  · rcases Nat.eq_or_lt_of_le hge with h | h
    · simp [claimedAt, ← h, h1]
    · have hn2 : n = k + 2 := by omega
      simp [claimedAt, hn2, h2]

/-! ## Helper lemmas about the filesystem model -/

theorem fsGet_erase_self (fs : FS) (p : FsPath) :
    fsGet (fsErase fs p) p = none := by
  induction fs with
  | nil => rfl
  | cons hd tl ih =>
    obtain ⟨q, v⟩ := hd
    by_cases hqp : q = p
    · simp [fsErase, hqp, ih]
    · simp [fsErase, fsGet, hqp, ih]

theorem fsGet_erase_ne (fs : FS) (p q : FsPath) (h : q ≠ p) :
    fsGet (fsErase fs p) q = fsGet fs q := by
  induction fs with
  | nil => rfl
  | cons hd tl ih =>
    obtain ⟨r, v⟩ := hd
    by_cases hrp : r = p
    · subst hrp
      have hrq : r ≠ q := fun hh => h hh.symm
      simp [fsErase, fsGet, ih, hrq]
    · by_cases hrq : r = q
      · subst hrq
        simp [fsErase, fsGet, Ne.symm hrp, hrp]
      · simp [fsErase, fsGet, hrp, hrq, ih]

theorem fsGet_cons_self (fs : FS) (p : FsPath) (v : ℕ) :
    fsGet ((p, v) :: fs) p = some v := by
  simp [fsGet]

theorem fsGet_cons_ne (fs : FS) (p q : FsPath) (v : ℕ) (h : q ≠ p) :
    fsGet ((q, v) :: fs) p = fsGet fs p := by
  simp [fsGet, h]

/-! ## Helper lemmas about strings -/

theorem str_data_append (a b : String) : (a ++ b).data = a.data ++ b.data := by
  cases a
  cases b
  rfl

theorem str_eq_of_data (a b : String) (h : a.data = b.data) : a = b := by
  cases a
  cases b
  cases h
  rfl

/-! ## Helper lemmas about the queue, worker and result polling -/

theorem enqueueAll_eq (js : List Job) : enqueueAll js = js := by
  have key : ∀ (l acc : List Job), l.foldl JobQueue.add acc = acc ++ l := by
    intro l
    induction l with
    | nil => intro acc; simp
    | cons x xs ih =>
      intro acc
      simp [List.foldl, JobQueue.add, ih]
  simpa using key js []

theorem workerRun_fst (env : ℕ → WorkerEnv) (s : EncSettings)
    (ts uid : ℕ → String) (js : List Job) :
    (workerRun env s ts uid js).map Prod.fst = js := by
  induction js generalizing env ts uid with
  | nil => rfl
  | cons j rest ih =>
    simp [workerRun, ih]

theorem foldl_latest_mem (rest : List ReadyFile) :
    ∀ f, rest.foldl (fun b x => if b.mtime < x.mtime then x else b) f ∈ f :: rest := by
  induction rest with
  | nil => intro f; simp
  | cons x xs ih =>
    intro f
    have h := ih (if f.mtime < x.mtime then x else f)
    simp only [List.foldl]
    rcases List.mem_cons.mp h with h1 | h2
    · rw [h1]
      by_cases hc : f.mtime < x.mtime
      · simp [hc]
      · simp [hc]
    · exact List.mem_cons_of_mem f (List.mem_cons_of_mem x h2)

theorem foldl_latest_ge (rest : List ReadyFile) :
    ∀ f g, g ∈ f :: rest →
      g.mtime ≤ (rest.foldl (fun b x => if b.mtime < x.mtime then x else b) f).mtime := by
  induction rest with
  | nil =>
    intro f g hg
    have : g = f := by simpa using hg
    simp [this]
  | cons x xs ih =>
    intro f g hg
    simp only [List.foldl]
    have hstep : f.mtime ≤ (if f.mtime < x.mtime then x else f).mtime ∧
        x.mtime ≤ (if f.mtime < x.mtime then x else f).mtime := by
      by_cases hc : f.mtime < x.mtime
      · rw [if_pos hc]
        exact ⟨Nat.le_of_lt hc, le_rfl⟩
      · rw [if_neg hc]
        exact ⟨le_rfl, Nat.le_of_not_lt hc⟩
    rcases List.mem_cons.mp hg with h1 | h2
    · subst h1
      exact le_trans hstep.1 (ih _ _ (List.mem_cons_self _ _))
    · rcases List.mem_cons.mp h2 with h3 | h4
      · subst h3
        exact le_trans hstep.2 (ih _ _ (List.mem_cons_self _ _))
      · exact ih _ g (List.mem_cons_of_mem _ h4)

/-- What `find_latest_mp4` returns: a `*.mp4` member of the listing, of
maximal mtime among the `*.mp4` members. -/
theorem find_latest_mp4_spec (files : List ReadyFile) (f : ReadyFile)
    (h : find_latest_mp4 files = some f) :
    f ∈ files.filter (fun g => isMp4 g.name) ∧
    ∀ g ∈ files, isMp4 g.name = true → g.mtime ≤ f.mtime := by
  unfold find_latest_mp4 at h
  cases hfl : files.filter (fun g => isMp4 g.name) with
  | nil =>
    rw [hfl] at h
    simp at h
  | cons a rest =>
    rw [hfl] at h
    dsimp only at h
    have hf : f = rest.foldl (fun b x => if b.mtime < x.mtime then x else b) a :=
      (Option.some.inj h).symm
    constructor
    · rw [hf]
      exact foldl_latest_mem rest a
    · intro g hg hmp4
      have hgf : g ∈ files.filter (fun x => isMp4 x.name) :=
        List.mem_filter.mpr ⟨hg, hmp4⟩
      rw [hfl] at hgf
      rw [hf]
      exact foldl_latest_ge rest a g hgf

theorem pollLoop_sound (ready : ℕ → List ReadyFile) (now : ℕ → ℕ) :
    ∀ fuel tick f t, pollLoop ready now fuel tick = some (f, t) →
      tick ≤ t ∧ t < tick + fuel ∧
      find_latest_mp4 (ready t) = some f ∧ now t - f.mtime ≤ 70 := by
  intro fuel
  induction fuel with
  | zero => intro tick f t h; exact absurd h (by simp [pollLoop])
  | succ n ih =>
    intro tick f t h
    rw [pollLoop] at h
    cases hl : find_latest_mp4 (ready tick) with
    | none =>
      rw [hl] at h
      obtain ⟨h1, h2, h3, h4⟩ := ih (tick + 1) f t h
      exact ⟨by omega, by omega, h3, h4⟩
    | some g =>
      rw [hl] at h
      dsimp only at h
      by_cases hrec : now tick - g.mtime ≤ 70
      · rw [if_pos hrec] at h
        obtain ⟨rfl, rfl⟩ : g = f ∧ tick = t := by
          constructor <;> [exact congrArg (·.1) (Option.some.inj h);
            exact congrArg (·.2) (Option.some.inj h)]
        exact ⟨le_rfl, by omega, hl, hrec⟩
      · rw [if_neg hrec] at h
        obtain ⟨h1, h2, h3, h4⟩ := ih (tick + 1) f t h
        exact ⟨by omega, by omega, h3, h4⟩

/-! ## Claims -/

/-- C2: for every tracked inbox path, if the observed size is zero on
every poll tick, the path is never claimed into the work directory, no
matter how many ticks elapse — a zero size never increments the
stability counter, so the claim threshold is never reached. -/
theorem C2_zero_size_never_claimed (sizes : ℕ → ℕ) (hz : ∀ n, sizes n = 0) :
    ∀ n, claimedAt sizes n = false := by
  intro n
  simp [claimedAt, runTick_zero sizes hz n]

theorem C2_zero_size_never_claimed_witness :
    claimedAt (fun _ => 0) 1000 = false :=
  C2_zero_size_never_claimed (fun _ => 0) (fun _ => rfl) 1000

/-- C3: for a file whose observed size is strictly increasing up to tick
`k` and then constant and positive, the claim fires exactly at tick
`k + 3` — after exactly `STABLE_TICKS = 3` consecutive polls with the
size unchanged and positive — and at no earlier tick; any size change
resets the counter to zero. -/
theorem C3_claim_after_exactly_stable_ticks (sizes : ℕ → ℕ) (k : ℕ)
    (hinc : ∀ i, i < k → sizes i < sizes (i + 1))
    (hconst : ∀ i, k ≤ i → sizes i = sizes k)
    (hpos : 0 < sizes k) :
    Poller.STABLE_TICKS = 3 ∧
    claimedAt sizes (k + 3) = true ∧
    (∀ n, n < k + 3 → claimedAt sizes n = false) ∧
    (∀ (r : TrackRec) (s : ℕ), s ≠ r.size →
      tickStep (some r) s = (some ⟨s, 0⟩, false)) := by
  obtain ⟨hfire, hearly⟩ := claim_position sizes k hinc hconst hpos
  refine ⟨rfl, hfire, hearly, ?_⟩
  intro r s hne
  exact tickStep_reset r s (by rintro ⟨heq, _⟩; exact hne heq)

theorem C3_claim_after_exactly_stable_ticks_witness :
    Poller.STABLE_TICKS = 3 ∧
    claimedAt (fun n => min n 2 + 1) 5 = true ∧
    claimedAt (fun n => min n 2 + 1) 4 = false :=
  ⟨(C3_claim_after_exactly_stable_ticks (fun n => min n 2 + 1) 2
      (by intro i hi; interval_cases i <;> decide)
      (by intro i hi; simp [Nat.min_def]; omega)
      (by decide)).1,
   (C3_claim_after_exactly_stable_ticks (fun n => min n 2 + 1) 2
      (by intro i hi; interval_cases i <;> decide)
      (by intro i hi; simp [Nat.min_def]; omega)
      (by decide)).2.1,
   (C3_claim_after_exactly_stable_ticks (fun n => min n 2 + 1) 2
      (by intro i hi; interval_cases i <;> decide)
      (by intro i hi; simp [Nat.min_def]; omega)
      (by decide)).2.2.1 4 (by omega)⟩

/-- C6: an image file appearing in the inbox with nonzero constant size
is claimed into the work directory on the third poll tick after the poll
that first sees it, with polls every `POLL_INTERVAL = 0.5` seconds and
`STABLE_TICKS = 3`. -/
theorem C6_constant_size_claimed_third_tick (sizes : ℕ → ℕ) (c : ℕ)
    (hconst : ∀ n, sizes n = c) (hpos : 0 < c) :
    claimedAt sizes 3 = true ∧
    (∀ n, n < 3 → claimedAt sizes n = false) ∧
    Poller.POLL_INTERVAL = 1/2 ∧ Poller.STABLE_TICKS = 3 := by
  have hconst0 : ∀ i, 0 ≤ i → sizes i = sizes 0 := by
    intro i _
    rw [hconst i, hconst 0]
  have hpos0 : 0 < sizes 0 := by rw [hconst 0]; exact hpos
  obtain ⟨hfire, hearly⟩ :=
    claim_position sizes 0 (by intro i hi; omega) hconst0 hpos0
  exact ⟨hfire, hearly, rfl, rfl⟩

theorem C6_constant_size_claimed_third_tick_witness :
    claimedAt (fun _ => 5) 3 = true ∧ Poller.POLL_INTERVAL = 1/2 :=
  ⟨(C6_constant_size_claimed_third_tick (fun _ => 5) 5 (fun _ => rfl)
      (by decide)).1,
   (C6_constant_size_claimed_third_tick (fun _ => 5) 5 (fun _ => rfl)
      (by decide)).2.2.1⟩

/-- C1 counterexample: the claim says the source goes to the archive
directory whenever the encoder invocation succeeds.  But if the encoder
succeeds and the subsequent move to archive raises (here with the
fallback move succeeding), the worker routes the source to failed — so
with the encoder succeeding the source does not end in archive. -/
theorem C1_counterexample :
    (workerProcess ⟨true, false, true⟩ ⟨"ready", 12, 1080, 1920, 25⟩
        "20250101_120000_000000" "aabbccdd" ⟨"work/img.jpg", false⟩).srcLoc
      ≠ SrcLoc.archive ∧
    (⟨true, false, true⟩ : WorkerEnv).encodeOk = true := by
  exact ⟨by decide, rfl⟩

/-- C1 (amended): the worker never re-enqueues the Job, unconditionally;
provided the post-processing `safe_move` calls succeed, the dequeued
Job's source ends in exactly one terminal directory — archive exactly
when the encoder invocation succeeds, failed otherwise; and if the
archive move itself raises after a successful encode, the source goes to
failed when the fallback move succeeds and stays in work when it too
fails. -/
theorem C1_terminal_routing (env : WorkerEnv) (s : EncSettings)
    (ts uid : String) (job : Job) :
    (workerProcess env s ts uid job).reEnqueued = false ∧
    (env.archiveMoveOk = true → env.failedMoveOk = true →
      ((workerProcess env s ts uid job).srcLoc = SrcLoc.archive ∨
        (workerProcess env s ts uid job).srcLoc = SrcLoc.failed) ∧
      ((workerProcess env s ts uid job).srcLoc = SrcLoc.archive ↔
        env.encodeOk = true)) ∧
    (env.encodeOk = true → env.archiveMoveOk = false →
      (env.failedMoveOk = true →
        (workerProcess env s ts uid job).srcLoc = SrcLoc.failed) ∧
      (env.failedMoveOk = false →
        (workerProcess env s ts uid job).srcLoc = SrcLoc.work)) := by
  obtain ⟨e, a, f⟩ := env
  cases e <;> cases a <;> cases f <;> simp [workerProcess]

theorem C1_terminal_routing_witness :
    (workerProcess ⟨true, true, true⟩ ⟨"ready", 12, 1080, 1920, 25⟩
        "t" "u" ⟨"work/a.jpg", false⟩).srcLoc = SrcLoc.archive ∧
    (workerProcess ⟨true, false, true⟩ ⟨"ready", 12, 1080, 1920, 25⟩
        "t" "u" ⟨"work/a.jpg", false⟩).srcLoc = SrcLoc.failed ∧
    (workerProcess ⟨true, false, false⟩ ⟨"ready", 12, 1080, 1920, 25⟩
        "t" "u" ⟨"work/a.jpg", false⟩).srcLoc = SrcLoc.work ∧
    (workerProcess ⟨true, false, true⟩ ⟨"ready", 12, 1080, 1920, 25⟩
        "t" "u" ⟨"work/a.jpg", false⟩).reEnqueued = false :=
  ⟨((C1_terminal_routing ⟨true, true, true⟩ ⟨"ready", 12, 1080, 1920, 25⟩
      "t" "u" ⟨"work/a.jpg", false⟩).2.1 rfl rfl).2.mpr rfl,
   ((C1_terminal_routing ⟨true, false, true⟩ ⟨"ready", 12, 1080, 1920, 25⟩
      "t" "u" ⟨"work/a.jpg", false⟩).2.2 rfl rfl).1 rfl,
   ((C1_terminal_routing ⟨true, false, false⟩ ⟨"ready", 12, 1080, 1920, 25⟩
      "t" "u" ⟨"work/a.jpg", false⟩).2.2 rfl rfl).2 rfl,
   (C1_terminal_routing ⟨true, false, true⟩ ⟨"ready", 12, 1080, 1920, 25⟩
      "t" "u" ⟨"work/a.jpg", false⟩).1⟩

/-- C5: the job queue is FIFO with a single sequential consumer: for any
sequence of enqueued Jobs, the worker processes them in exactly the
enqueue order (no reordering), and `add` (an unbounded append) always
succeeds immediately — enqueue never blocks. -/
theorem C5_fifo_single_worker (env : ℕ → WorkerEnv) (s : EncSettings)
    (ts uid : ℕ → String) (js : List Job) (q : List Job) (j : Job) :
    (workerRun env s ts uid (enqueueAll js)).map Prod.fst = js ∧
    JobQueue.add q j = q ++ [j] ∧
    (JobQueue.add q j).length = q.length + 1 := by
  refine ⟨?_, rfl, by simp [JobQueue.add]⟩
  rw [enqueueAll_eq]
  exact workerRun_fst env s ts uid js

/-- C9: the worker's behavior is independent of a Job's `is_temp` flag:
two Jobs differing only in `is_temp` produce identical outcomes — the
same encoder argument vector, the same routing of the source, the same
everything observable.  (`is_temp` is not read anywhere in
`JobQueue._worker`.) -/
theorem C9_is_temp_noninterference (env : WorkerEnv) (s : EncSettings)
    (ts uid : String) (p : String) (b1 b2 : Bool) :
    workerProcess env s ts uid ⟨p, b1⟩ = workerProcess env s ts uid ⟨p, b2⟩ :=
  rfl

/-- C10: if the encoder succeeds but the move of the source into archive
raises, the worker attempts the fallback move into failed; the source
ends in failed exactly when that move succeeds and stays in work exactly
when it also fails — while the encoded video is already in ready. -/
theorem C10_archive_move_failure_fallback (env : WorkerEnv)
    (s : EncSettings) (ts uid : String) (job : Job)
    (hE : env.encodeOk = true) (hA : env.archiveMoveOk = false) :
    (workerProcess env s ts uid job).attemptedFailedMove = true ∧
    ((workerProcess env s ts uid job).srcLoc = SrcLoc.failed ↔
      env.failedMoveOk = true) ∧
    ((workerProcess env s ts uid job).srcLoc = SrcLoc.work ↔
      env.failedMoveOk = false) ∧
    (workerProcess env s ts uid job).videoInReady = true := by
  obtain ⟨e, a, f⟩ := env
  simp only at hE hA
  subst hE hA
  cases f <;> simp [workerProcess]

theorem C10_archive_move_failure_fallback_witness :
    (workerProcess ⟨true, false, true⟩ ⟨"ready", 12, 1080, 1920, 25⟩
        "t" "u" ⟨"work/b.png", false⟩).attemptedFailedMove = true ∧
    ((workerProcess ⟨true, false, true⟩ ⟨"ready", 12, 1080, 1920, 25⟩
        "t" "u" ⟨"work/b.png", false⟩).srcLoc = SrcLoc.failed ↔
      (⟨true, false, true⟩ : WorkerEnv).failedMoveOk = true) ∧
    ((workerProcess ⟨true, false, true⟩ ⟨"ready", 12, 1080, 1920, 25⟩
        "t" "u" ⟨"work/b.png", false⟩).srcLoc = SrcLoc.work ↔
      (⟨true, false, true⟩ : WorkerEnv).failedMoveOk = false) ∧
    (workerProcess ⟨true, false, true⟩ ⟨"ready", 12, 1080, 1920, 25⟩
        "t" "u" ⟨"work/b.png", false⟩).videoInReady = true :=
  C10_archive_move_failure_fallback ⟨true, false, true⟩
    ⟨"ready", 12, 1080, 1920, 25⟩ "t" "u" ⟨"work/b.png", false⟩ rfl rfl

/-- C4: the claim operation is all-or-nothing.  When `safe_move`
succeeds, the file is visible, whole, at the freshly named destination
and gone from the source; when it fails, the filesystem — in particular
the source file — is untouched.  The source is never deleted without the
destination copy existing, because the only mutation is the single
atomic `os.replace`. -/
theorem C4_safe_move_atomic (fs : FS) (src : FsPath) (dstDir : String)
    (keepExt : Bool) (ts uid : String) (ok : Bool) (h : src.dir ≠ dstDir) :
    ((safe_move fs src dstDir keepExt ts uid ok).2 = none →
      (safe_move fs src dstDir keepExt ts uid ok).1 = fs) ∧
    (∀ dst, (safe_move fs src dstDir keepExt ts uid ok).2 = some dst →
      dst.dir = dstDir ∧
      fsGet (safe_move fs src dstDir keepExt ts uid ok).1 dst = fsGet fs src ∧
      fsGet fs src ≠ none ∧
      fsGet (safe_move fs src dstDir keepExt ts uid ok).1 src = none) := by
  cases ok with
  | false =>
    refine ⟨fun _ => rfl, fun dst hdst => ?_⟩
    simp [safe_move, osReplace] at hdst
  | true =>
    cases hv : fsGet fs src with
    | none =>
      refine ⟨fun _ => ?_, fun dst hdst => ?_⟩
      · simp [safe_move, osReplace, hv]
      · simp [safe_move, osReplace, hv] at hdst
    | some v =>
      have hres : safe_move fs src dstDir keepExt ts uid true =
          ((⟨dstDir, destFname src.fname ts uid keepExt⟩, v) ::
            fsErase (fsErase fs src) ⟨dstDir, destFname src.fname ts uid keepExt⟩,
           some ⟨dstDir, destFname src.fname ts uid keepExt⟩) := by
        simp [safe_move, osReplace, hv]
      refine ⟨fun hnone => ?_, fun dst hdst => ?_⟩
      · rw [hres] at hnone
        simp at hnone
      · rw [hres] at hdst
        obtain rfl : dst = ⟨dstDir, destFname src.fname ts uid keepExt⟩ :=
          (Option.some.inj hdst).symm
        have hne : src ≠ (⟨dstDir, destFname src.fname ts uid keepExt⟩ : FsPath) := by
          intro hh
          exact h (congrArg FsPath.dir hh)
        refine ⟨rfl, ?_, by simp, ?_⟩
        · rw [hres]
          exact fsGet_cons_self _ _ v
        · rw [hres]
          dsimp only
          rw [fsGet_cons_ne _ _ _ v (Ne.symm hne)]
          rw [fsGet_erase_ne _ _ _ hne]
          exact fsGet_erase_self fs src

theorem C4_safe_move_atomic_witness :
    c4dst.dir = "work" ∧
    fsGet (safe_move c4fs c4src "work" true "20250101_120000_000000"
        "aabbccdd" true).1 c4dst = fsGet c4fs c4src ∧
    fsGet c4fs c4src ≠ none ∧
    fsGet (safe_move c4fs c4src "work" true "20250101_120000_000000"
        "aabbccdd" true).1 c4src = none :=
  (C4_safe_move_atomic c4fs c4src "work" true "20250101_120000_000000"
      "aabbccdd" true (by decide)).2 c4dst (by decide)

/-- C7 counterexample: the claim bounds the ready-directory wait at 60
polling ticks, but the loop in `handle_photo` runs `range(120)`: with an
eligible artifact first appearing at tick 100, the code still finds and
reports it at tick 100, past the claimed 60-tick deadline. -/
theorem C7_counterexample :
    handle_photo_poll c7ceReady c7ceNow = some (⟨"v.mp4", 1000⟩, 100) ∧
    ¬(100 < 60) := by
  exact ⟨by decide, by decide⟩

/-- C7 (amended): after enqueueing a chat Job, the adapter polls the
ready directory for at most 120 ticks of 0.5 time units each; whenever
it reports an artifact, that artifact was found before tick 120, is the
`find_latest_mp4` selection of the ready directory at that tick — a
`*.mp4` file of maximal modification time among those present — and its
modification time is within 70 time units of the current time. -/
theorem C7_poll_bounded_and_recent (ready : ℕ → List ReadyFile)
    (now : ℕ → ℕ) (f : ReadyFile) (t : ℕ)
    (h : handle_photo_poll ready now = some (f, t)) :
    t < 120 ∧
    find_latest_mp4 (ready t) = some f ∧
    isMp4 f.name = true ∧ f ∈ ready t ∧
    (∀ g ∈ ready t, isMp4 g.name = true → g.mtime ≤ f.mtime) ∧
    now t - f.mtime ≤ 70 := by
  obtain ⟨h1, h2, h3, h4⟩ := pollLoop_sound ready now 120 0 f t h
  obtain ⟨hmem, hmax⟩ := find_latest_mp4_spec (ready t) f h3
  have hf := List.mem_filter.mp hmem
  exact ⟨by omega, h3, hf.2, hf.1, hmax, h4⟩

theorem C7_poll_bounded_and_recent_witness :
    (0 : ℕ) < 120 ∧
    find_latest_mp4 (c7wReady 0) = some ⟨"out.mp4", 40⟩ ∧
    isMp4 "out.mp4" = true ∧
    c7wNow 0 - (40 : ℕ) ≤ 70 :=
  ⟨(C7_poll_bounded_and_recent c7wReady c7wNow ⟨"out.mp4", 40⟩ 0 (by decide)).1,
   (C7_poll_bounded_and_recent c7wReady c7wNow ⟨"out.mp4", 40⟩ 0 (by decide)).2.1,
   (C7_poll_bounded_and_recent c7wReady c7wNow ⟨"out.mp4", 40⟩ 0 (by decide)).2.2.1,
   (C7_poll_bounded_and_recent c7wReady c7wNow ⟨"out.mp4", 40⟩ 0 (by decide)).2.2.2.2.2⟩

/-- C8 counterexample: the generated destination name depends only on
the source's stem, the timestamp string and the 8-hex UUID prefix.  Two
distinct files — one in inbox, one in tmp — with the same name, claimed
concurrently with the same timestamp and the same (truncated, random)
UUID draw, map to the identical destination path in work; the second
`os.replace` then silently overwrites the first, losing its content
(content token 1 is gone from the final filesystem). -/
theorem C8_counterexample :
    (⟨"inbox", c8name⟩ : FsPath) ≠ ⟨"tmp", c8name⟩ ∧
    (safe_move c8fs ⟨"inbox", c8name⟩ "work" true c8ts c8uid true).2
      = some c8dst ∧
    (safe_move c8fs1 ⟨"tmp", c8name⟩ "work" true c8ts c8uid true).2
      = some c8dst ∧
    (safe_move c8fs1 ⟨"tmp", c8name⟩ "work" true c8ts c8uid true).1
      = [(c8dst, 2)] := by
  exact ⟨by decide, by decide, by decide, by decide⟩

/-- C8 (amended): two files claimed within the same polling tick receive
distinct destination names provided their 8-character random
disambiguators differ (for same-length suffixes); with only 32 bits of
randomness in the truncated UUID, uniqueness of concurrent claims is
probabilistic, not absolute. -/
theorem C8_distinct_uid_distinct_names (f1 f2 ts1 ts2 uid1 uid2 : String)
    (hu : uid1.length = uid2.length)
    (he : (lowerStr (fnameSplit (baseName f1)).2).length =
          (lowerStr (fnameSplit (baseName f2)).2).length)
    (hne : uid1 ≠ uid2) :
    destFname f1 ts1 uid1 true ≠ destFname f2 ts2 uid2 true := by
  intro hcol
  have e1 : destFname f1 ts1 uid1 true =
      unique_stem f1 ts1 uid1 ++ lowerStr (fnameSplit (baseName f1)).2 := rfl
  have e2 : destFname f2 ts2 uid2 true =
      unique_stem f2 ts2 uid2 ++ lowerStr (fnameSplit (baseName f2)).2 := rfl
  rw [e1, e2] at hcol
  have hd := congrArg String.data hcol
  rw [str_data_append, str_data_append] at hd
  obtain ⟨hd2, -⟩ := List.append_inj' hd he
  have e3 : unique_stem f1 ts1 uid1 =
      ((fnameSplit (baseName f1)).1 ++ "_" ++ ts1 ++ "_") ++ uid1 := rfl
  have e4 : unique_stem f2 ts2 uid2 =
      ((fnameSplit (baseName f2)).1 ++ "_" ++ ts2 ++ "_") ++ uid2 := rfl
  rw [e3, e4] at hd2
  rw [str_data_append, str_data_append] at hd2
  obtain ⟨-, hd3⟩ := List.append_inj' hd2 hu
  exact hne (str_eq_of_data uid1 uid2 hd3)

theorem C8_distinct_uid_distinct_names_witness :
    destFname "img.jpg" "20250101_120000_000000" "aaaaaaaa" true
      ≠ destFname "img.jpg" "20250101_120000_000000" "bbbbbbbb" true :=
  C8_distinct_uid_distinct_names "img.jpg" "img.jpg"
    "20250101_120000_000000" "20250101_120000_000000"
    "aaaaaaaa" "bbbbbbbb" rfl rfl (by decide)

end InstaPipeline
